import Mathlib

/-!
Verification development for the highdupe incremental duplicate-word analysis
engine.  The definitions below are a shallow embedding of the TypeScript
sources: `DocumentParser` (src/unnamed/part_003), `DuplicateWordChecker`
(src/unnamed/part_001) and `Executor` (src/src/core/executor.ts).

Modelling conventions:
* a text document is a list of lines (`TextDocument.lines`); `lineCount` is the
  list length and `lineAt i` is list indexing;
* JavaScript strings are Lean `String`s, with the scanning primitives written
  over `List Char`;
* the handful of regular expressions in the sources are fixed literal patterns;
  each is translated into an explicit scanner with the same matching semantics
  (leftmost match, non-greedy where the pattern is non-greedy, global scan
  resuming after each match);
* `String.prototype.toLowerCase` is modelled by `lowerChar` (ASCII case
  folding, which is what the documents the tool targets use);
* the md5 content hash (`Executor.hashParagraph`, Node `crypto`, external to
  the repository) is a parameter `hashParagraph : String → String` of the
  executor functions.
-/

/-- JavaScript `\w` word-character class: `[A-Za-z0-9_]`. -/
def wordChar (c : Char) : Bool :=
  ('a' ≤ c && c ≤ 'z') || ('A' ≤ c && c ≤ 'Z') || ('0' ≤ c && c ≤ '9') || c = '_'

/-- ASCII case folding, modelling `String.prototype.toLowerCase` on the
ASCII documents the tool processes. -/
def lowerChar (c : Char) : Char :=
  if 'A' ≤ c ∧ c ≤ 'Z' then Char.ofNat (c.toNat + 32) else c

/-- Lowercase a whole string character-wise. -/
def strLower (s : String) : String := ⟨s.data.map lowerChar⟩

/-- Does `pat` occur as a prefix of `l`?  (Boolean version used by the
substring scanners.) -/
def prefixOfB : List Char → List Char → Bool
  | [], _ => true
  | _ :: _, [] => false
  | c :: cs, d :: ds => c == d && prefixOfB cs ds

/-- Does `pat` occur as a contiguous substring of `l`?  Models JavaScript
`String.prototype.includes`. -/
def containsSub (pat : List Char) : List Char → Bool
  | [] => prefixOfB pat []
  | d :: ds => prefixOfB pat (d :: ds) || containsSub pat ds

/-- `String.prototype.includes` on Lean strings. -/
def containsStr (s pat : String) : Bool := containsSub pat.data s.data

/-- First index of character `c` in `l`, as a JavaScript `indexOf` result
(`-1` when absent). -/
def indexOfI (c : Char) (l : List Char) : Int :=
  match l.findIdx? (fun d => d == c) with
  | none => -1
  | some n => (n : Int)

/-- All start indices at which `pat` occurs in `l`. -/
def subOccurrences (pat l : List Char) : List Nat :=
  (List.range (l.length + 1)).filter (fun i => prefixOfB pat (l.drop i))

/-- JavaScript `String.prototype.lastIndexOf` for a substring pattern
(`-1` when absent). -/
def lastIndexOfSub (pat l : List Char) : Int :=
  match (subOccurrences pat l).getLast? with
  | none => -1
  | some n => (n : Int)

/-- JavaScript `String.prototype.trim`, written over the character list (the
library `String.trim` works on byte positions, which the kernel cannot
evaluate). -/
def strTrim (s : String) : String :=
  ⟨((s.data.dropWhile Char.isWhitespace).reverse.dropWhile Char.isWhitespace).reverse⟩

/-! ### DocumentParser: line preprocessing

`DocumentParser.preprocessLatexLine` applies a fixed sequence of regex
replacements to one line.  Each replacement is embedded as a scanner with
JavaScript regex semantics. -/

/-- Scanner for `line.replace(/(?<!\\)%.*$/, '')`: cut the line at the first
`%` that is not immediately preceded by a backslash.  `prev` is the previous
character (none at the start of the line). -/
def stripCommentAux : Option Char → List Char → List Char
  | _, [] => []
  | prev, c :: rest =>
    if c = '%' ∧ prev ≠ some '\\' then []
    else c :: stripCommentAux (some c) rest

/-- Remove the trailing comment of a line (first unescaped `%` to the end). -/
def stripComment (l : List Char) : List Char := stripCommentAux none l

/-- Skip to just after the first adjacent `$$` pair, if any. -/
def afterClose2 : List Char → Option (List Char)
  | '$' :: '$' :: rest => some rest
  | _ :: rest => afterClose2 rest
  | [] => none

/-- Scanner for `line.replace(/\$\$.*?\$\$/g, '')`: repeatedly delete the
shortest `$$...$$` span.  `fuel` bounds the recursion; `remDD` supplies
`l.length`, which is sufficient because every step consumes at least one
character. -/
def remDDAux : Nat → List Char → List Char
  | 0, s => s
  | _ + 1, [] => []
  | fuel + 1, '$' :: '$' :: rest =>
    (match afterClose2 rest with
     | some rest2 => remDDAux fuel rest2
     | none => '$' :: '$' :: remDDAux fuel rest)
  | fuel + 1, c :: rest => c :: remDDAux fuel rest

/-- Delete all `$$...$$` display-math spans from a line. -/
def remDD (l : List Char) : List Char := remDDAux l.length l

/-- Skip to just after the first `$`, if any. -/
def afterClose1 : List Char → Option (List Char)
  | '$' :: rest => some rest
  | _ :: rest => afterClose1 rest
  | [] => none

/-- Scanner for `line.replace(/\$.*?\$/g, '')`: repeatedly delete the shortest
`$...$` span. -/
def remDAux : Nat → List Char → List Char
  | 0, s => s
  | _ + 1, [] => []
  | fuel + 1, '$' :: rest =>
    (match afterClose1 rest with
     | some rest2 => remDAux fuel rest2
     | none => '$' :: remDAux fuel rest)
  | fuel + 1, c :: rest => c :: remDAux fuel rest

/-- Delete all `$...$` inline-math spans from a line. -/
def remD (l : List Char) : List Char := remDAux l.length l

/-- Drop the literal `pat` from the front of `s`, or fail. -/
def dropLit : List Char → List Char → Option (List Char)
  | [], s => some s
  | _ :: _, [] => none
  | c :: cs, d :: ds => if c = d then dropLit cs ds else none

/-- Split `s` as `arg ++ '}' :: rest` where `arg` is nonempty and free of
`}` — the `[^}]+\}` part of the command regexes.  The auxiliary version
allows an empty `arg` (used after the first, checked, character). -/
def argSplitAux : List Char → Option (List Char × List Char)
  | [] => none
  | '}' :: rest => some ([], rest)
  | c :: rest => (argSplitAux rest).map (fun p => (c :: p.1, p.2))

/-- The `[^}]+\}` part of the command regexes: at least one non-brace
character, then the closing brace. -/
def argSplit : List Char → Option (List Char × List Char)
  | [] => none
  | c :: rest =>
    if c = '}' then none else (argSplitAux rest).map (fun p => (c :: p.1, p.2))

/-- Try to match `name` (then an optional `*` if `star`), then `{arg}`, at the
head of `s` (which is the text following a backslash).  Returns the argument
and the rest of the line after the closing brace. -/
def tryCmd (star : Bool) (name : List Char) (s : List Char) :
    Option (List Char × List Char) :=
  match dropLit name s with
  | none => none
  | some s1 =>
    let s2 := if star then (match s1 with | '*' :: r => r | _ => s1) else s1
    match s2 with
    | '{' :: r => argSplit r
    | _ => none

/-- Try the alternatives of the command regex in order (JavaScript alternation
order; the name sets used below have no member that is a prefix of another, so
the order is immaterial). -/
def tryCmds (star : Bool) : List (List Char) → List Char →
    Option (List Char × List Char)
  | [], _ => none
  | n :: ns, s =>
    match tryCmd star n s with
    | some r => some r
    | none => tryCmds star ns s

/-- Global scan for `\\(name1|name2|...)\*?\{[^}]+\}`, replacing each match by
its argument when `keep` is true and by the empty string otherwise.  This is
the common shape of the `\cite`, `\label`-family, text-formatting and
sectioning replacements in `preprocessLatexLine`. -/
def replCmdsAux (star keep : Bool) (names : List (List Char)) :
    Nat → List Char → List Char
  | 0, s => s
  | _ + 1, [] => []
  | fuel + 1, '\\' :: rest =>
    (match tryCmds star names rest with
     | some (arg, rest2) =>
       (if keep then arg else []) ++ replCmdsAux star keep names fuel rest2
     | none => '\\' :: replCmdsAux star keep names fuel rest)
  | fuel + 1, c :: rest => c :: replCmdsAux star keep names fuel rest

/-- Entry point of the command replacer. -/
def replCmds (star keep : Bool) (names : List (List Char)) (l : List Char) :
    List Char :=
  replCmdsAux star keep names l.length l

namespace DocumentParser

/-- A paragraph record as produced by `DocumentParser` (`core/types.ts`). -/
structure Paragraph where
  text : String
  startLine : Nat
  endLine : Nat
  startOffset : Nat
  endOffset : Nat
deriving DecidableEq, Repr

/-- The host editor's document: a list of lines plus the identity data used by
`getFileType`.  `lineCount` is `lines.length`; `lineAt i` is list indexing. -/
structure TextDocument where
  lines : List String
  languageId : String
  fileName : String
deriving DecidableEq, Repr

/-- `DocumentParser.preprocessLatexLine`: strip the trailing comment, delete
math spans, delete `\cite{...}` and `\label`-family commands, and flatten
text-formatting and sectioning commands to their argument text. -/
def preprocessLatexLine (line : String) : String :=
  let l1 := stripComment line.data
  let l2 := remDD l1
  let l3 := remD l2
  let l4 := replCmds false false ["cite".data] l3
  let l5 := replCmds false false ["label".data, "ref".data, "pageref".data, "eqref".data] l4
  let l6 := replCmds false true ["textbf".data, "textit".data, "emph".data,
    "underline".data, "textsc".data, "texttt".data] l5
  let l7 := replCmds true true ["chapter".data, "section".data, "subsection".data,
    "subsubsection".data, "paragraph".data, "subparagraph".data] l6
  ⟨l7⟩

/-- Does the line match `/\\begin\{(bibliography|thebibliography)\}/`?  The
pattern is literal, so the regex test is substring containment. -/
def bibBeginLine (line : String) : Bool :=
  containsStr line "\\begin\x7bbibliography\x7d" ||
  containsStr line "\\begin\x7bthebibliography\x7d"

/-- Does the line match `/\\end\{(bibliography|thebibliography)\}/`? -/
def bibEndLine (line : String) : Bool :=
  containsStr line "\\end\x7bbibliography\x7d" ||
  containsStr line "\\end\x7bthebibliography\x7d"

/-- The math-like environment names recognised by the segmenter.  Note the
list has no table environments. -/
def mathEnvNames : List String :=
  ["equation", "align", "gather", "multline", "flalign", "alignat"]

/-- Does the line match
`/\\begin\{(equation|align|gather|multline|flalign|alignat)\*?\}/`? -/
def mathBeginLine (line : String) : Bool :=
  mathEnvNames.any (fun n =>
    containsStr line ("\\begin\x7b" ++ n ++ "\x7d") ||
    containsStr line ("\\begin\x7b" ++ n ++ "*\x7d"))

/-- Does the line match the corresponding `\end` pattern? -/
def mathEndLine (line : String) : Bool :=
  mathEnvNames.any (fun n =>
    containsStr line ("\\end\x7b" ++ n ++ "\x7d") ||
    containsStr line ("\\end\x7b" ++ n ++ "*\x7d"))

/-- `line.includes('\\par')`. -/
def hasParCmd (line : String) : Bool := containsStr line "\\par"

/-- Is the first non-whitespace character of the line the comment marker?
Models `lineText.trim().startsWith('%')`. -/
def commentOnlyLine (l : List Char) : Bool :=
  match l.dropWhile (fun c => c.isWhitespace) with
  | '%' :: _ => true
  | _ => false

/-- `DocumentParser.addParagraph`: flush an accumulated paragraph, skipping it
when the joined, trimmed text is empty. -/
def addParagraph (paras : List Paragraph) (lines : List String)
    (lineNumbers : List Nat) : List Paragraph :=
  match lines, lineNumbers with
  | [], _ => paras
  | _ :: _, [] => paras
  | _ :: _, n0 :: ns =>
    let text := strTrim (String.intercalate " " lines)
    if text.length = 0 then paras
    else paras ++ [{ text := text
                     startLine := n0
                     endLine := (n0 :: ns).getLast (by simp)
                     startOffset := 0
                     endOffset := text.length }]

/-- Loop state of `DocumentParser.parseLatexParagraphs`. -/
structure SegState where
  inMath : Bool
  inBib : Bool
  cur : List String
  curNums : List Nat
  paras : List Paragraph
deriving Repr

/-- One iteration of the `parseLatexParagraphs` line loop, for the line with
index `idx`.  The branch order follows the source: bibliography begin/end,
bibliography skip, math begin (falls through), math end, math skip,
comment-only skip, then the blank-or-`\par` paragraph-break check. -/
def segStep (st : SegState) (idx : Nat) (line : String) : SegState :=
  if bibBeginLine line then
    { st with
      inBib := true
      cur := []
      curNums := []
      paras := if st.cur.length > 0 then addParagraph st.paras st.cur st.curNums
               else st.paras }
  else if bibEndLine line then
    { st with inBib := false }
  else if st.inBib then st
  else
    let st1 :=
      if mathBeginLine line then
        { st with
          inMath := true
          cur := []
          curNums := []
          paras := if st.cur.length > 0 then addParagraph st.paras st.cur st.curNums
                   else st.paras }
      else st
    if mathEndLine line then { st1 with inMath := false }
    else if st1.inMath then st1
    else if commentOnlyLine line.data then st1
    else
      let processedLine := preprocessLatexLine line
      if strTrim processedLine = "" || hasParCmd line then
        { st1 with
          cur := []
          curNums := []
          paras := if st1.cur.length > 0 then
                     addParagraph st1.paras st1.cur st1.curNums
                   else st1.paras }
      else if (strTrim processedLine).length > 0 then
        { st1 with
          cur := st1.cur ++ [processedLine]
          curNums := st1.curNums ++ [idx] }
      else st1

/-- `DocumentParser.parseLatexParagraphs`: fold the line loop over the
document and flush the last open paragraph. -/
def parseLatexParagraphs (doc : TextDocument) : List Paragraph :=
  let final := doc.lines.enum.foldl
    (fun st p => segStep st p.1 p.2) ⟨false, false, [], [], []⟩
  if final.cur.length > 0 then addParagraph final.paras final.cur final.curNums
  else final.paras

/-- Loop state of `DocumentParser.parseGenericParagraphs`. -/
structure GenState where
  cur : List String
  paraStart : Nat
  curOffset : Nat
  paras : List Paragraph
deriving Repr

/-- One iteration of the `parseGenericParagraphs` line loop. -/
def genStep (st : GenState) (idx : Nat) (line : String) : GenState :=
  if strTrim line = "" then
    let st1 :=
      if st.cur.length > 0 then
        let text := strTrim (String.intercalate " " st.cur)
        if text.length > 0 then
          { st with
            paras := st.paras ++ [{ text := text
                                    startLine := st.paraStart
                                    endLine := idx - 1
                                    startOffset := st.curOffset
                                    endOffset := st.curOffset + text.length }]
            curOffset := st.curOffset + text.length + 1
            cur := [] }
        else { st with cur := [] }
      else st
    { st1 with paraStart := idx + 1 }
  else
    let st1 := if st.cur.length = 0 then { st with paraStart := idx } else st
    { st1 with cur := st1.cur ++ [line] }

/-- `DocumentParser.parseGenericParagraphs`: blank-line-separated paragraphs
for non-LaTeX documents. -/
def parseGenericParagraphs (doc : TextDocument) : List Paragraph :=
  let final := doc.lines.enum.foldl
    (fun st p => genStep st p.1 p.2) ⟨[], 0, 0, []⟩
  if final.cur.length > 0 then
    let text := strTrim (String.intercalate " " final.cur)
    if text.length > 0 then
      final.paras ++ [{ text := text
                        startLine := final.paraStart
                        endLine := doc.lines.length - 1
                        startOffset := final.curOffset
                        endOffset := final.curOffset + text.length }]
    else final.paras
  else final.paras

/-- Suffix test used to model `String.prototype.endsWith`. -/
def endsWithStr (s suf : String) : Bool := prefixOfB suf.data.reverse s.data.reverse

/-- `DocumentParser.getFileType`. -/
def getFileType (doc : TextDocument) : String :=
  if doc.languageId = "latex" || endsWithStr doc.fileName ".tex" then "latex"
  else if doc.languageId = "markdown" || endsWithStr doc.fileName ".md" then "markdown"
  else if endsWithStr doc.fileName ".qmd" then "quarto"
  else if endsWithStr doc.fileName ".Rmd" then "rmarkdown"
  else "text"

/-- The `DocumentContext` record handed to checker modules.  The cursor
position field of the source is dropped: it is only stored, never read by the
core analysed here. -/
structure DocumentContext where
  fullText : String
  paragraphs : List Paragraph
  document : TextDocument
  fileType : String

/-- `DocumentParser.parseDocument`. -/
def parseDocument (doc : TextDocument) : DocumentContext :=
  let fileType := getFileType doc
  let paragraphs :=
    if fileType = "latex" then parseLatexParagraphs doc
    else parseGenericParagraphs doc
  { fullText := String.intercalate "\n" doc.lines, paragraphs := paragraphs,
    document := doc, fileType := fileType }

end DocumentParser

/-! ### DuplicateWordChecker -/

namespace DuplicateWordChecker

open DocumentParser

/-- A position in the editor's document model (`vscode.Position`). -/
structure Position where
  line : Nat
  character : Nat
deriving DecidableEq, Repr

/-- A range in the editor's document model (`vscode.Range`); `stop` is the
source's `end` field (a Lean keyword). -/
structure Range where
  start : Position
  stop : Position
deriving DecidableEq, Repr

/-- A `CheckResult` as produced by checker modules (`core/types.ts`). -/
structure CheckResult where
  range : Range
  message : String
  suggestion : String
  severity : String
  issueType : String
  text : String
deriving DecidableEq, Repr

/-- `DEFAULT_EXCLUDE_WORDS` from the duplicate-word checker. -/
def DEFAULT_EXCLUDE_WORDS : List String :=
  ["the", "and", "a", "of", "to", "in", "is", "it", "that", "for",
   "as", "with", "on", "at", "by", "from", "or", "an", "be", "this",
   "was", "are", "have", "has", "had", "not", "but", "can", "will",
   "if", "we", "he", "she", "they", "you", "i", "my", "our", "your"]

/-- The settings record of the duplicate-word checker; the two `excludeWords`
tiers are flattened into two list fields. -/
structure DuplicateWordSettings where
  enabled : Bool
  scope : String
  excludeGlobal : List String
  excludeProject : List String
deriving DecidableEq, Repr

/-- The checker's default settings. -/
def defaultSettings : DuplicateWordSettings :=
  { enabled := true, scope := "paragraph",
    excludeGlobal := DEFAULT_EXCLUDE_WORDS, excludeProject := [] }

/-- `DuplicateWordChecker.getExcludedWords`: global tier followed by project
tier. -/
def getExcludedWords (settings : DuplicateWordSettings) : List String :=
  settings.excludeGlobal ++ settings.excludeProject

/-- Tokenizer for `text.match(/\b\w+\b/g)`: the maximal runs of word
characters, in order.  `cur` is the current run accumulated in reverse. -/
def tokenizeAux (cur : List Char) : List Char → List (List Char)
  | [] => if cur.isEmpty then [] else [cur.reverse]
  | c :: rest =>
    if wordChar c then tokenizeAux (c :: cur) rest
    else if cur.isEmpty then tokenizeAux [] rest
    else cur.reverse :: tokenizeAux [] rest

/-- All `\b\w+\b` tokens of a character list. -/
def tokenize (l : List Char) : List (List Char) := tokenizeAux [] l

/-- One `wordCounts.set(word, (wordCounts.get(word) || 0) + 1)` update on an
insertion-ordered association list (JavaScript `Map` iteration order is
insertion order). -/
def bumpCount : List (String × Nat) → String → List (String × Nat)
  | [], w => [(w, 1)]
  | (k, c) :: rest, w =>
    if k = w then (k, c + 1) :: rest else (k, c) :: bumpCount rest w

/-- `DuplicateWordChecker.findDuplicatesInText`: lowercase, tokenize, filter
the exclusion vocabulary, count, and keep the tokens with count above one. -/
def findDuplicatesInText (settings : DuplicateWordSettings) (text : String) :
    List String :=
  let excludedWords := getExcludedWords settings
  let words := (tokenize (text.data.map lowerChar)).map (fun l => (⟨l⟩ : String))
  let filteredWords := words.filter (fun word => !(excludedWords.contains word))
  let wordCounts := filteredWords.foldl bumpCount []
  ((wordCounts.filter (fun p => p.2 > 1)).map (fun p => p.1))

/-- Character-by-character case-insensitive match of the (lowercase) pattern
`w` at the head of `s`, including the trailing `\b` boundary: after the
pattern, `s` must end or continue with a non-word character.  This is the
matching semantics of `new RegExp('\\b' + word + '\\b', 'gi')` for the
lowercase `\w+` tokens the checker builds (escapeRegex is the identity on
such tokens, so it is not modelled separately). -/
def matchCI : List Char → List Char → Bool
  | [], [] => true
  | [], d :: _ => !wordChar d
  | _ :: _, [] => false
  | c :: cs, d :: ds => (lowerChar d == c) && matchCI cs ds

/-- The `regex.exec` loop of `findAllOccurrences`: scan left to right,
emitting `(startIndex, matchedSlice)` for each whole-word case-insensitive
match and resuming after the match.  `prevWord` records whether the previous
character is a word character (for the leading `\b`); `i` is the absolute
index of the head of `s`.  `fuel` bounds the recursion; the entry point
supplies the line length, which suffices since every step consumes at least
one character. -/
def findMatchesAux (w : List Char) : Nat → Bool → Nat → List Char →
    List (Nat × List Char)
  | 0, _, _, _ => []
  | _ + 1, _, _, [] => []
  | fuel + 1, prevWord, i, d :: ds =>
    if !prevWord && matchCI w (d :: ds) then
      (i, (d :: ds).take w.length) ::
        findMatchesAux w fuel true (i + w.length) ((d :: ds).drop w.length)
    else
      findMatchesAux w fuel (wordChar d) (i + 1) ds

/-- All whole-word case-insensitive matches of `w` in `s`.  A defensive guard
returns no matches for the empty pattern (the checker only ever passes
nonempty tokens; the JavaScript loop would not terminate on an empty one). -/
def findMatches (w s : List Char) : List (Nat × List Char) :=
  if w.isEmpty then [] else findMatchesAux w s.length false 0 s

/-- Does the line contain a math/table environment delimiter, in the sense of
the re-location skip in `findAllOccurrences`?  (The source tests exactly these
four substrings.) -/
def envDelimLine (l : List Char) : Bool :=
  containsSub "\\begin\x7bequation\x7d".data l ||
  containsSub "\\begin\x7balign\x7d".data l ||
  containsSub "\\begin\x7btable\x7d".data l ||
  containsSub "$$".data l

/-- The mid-line comment filter of `findAllOccurrences`: the text before the
match contains `%` and does not contain the two-character sequence `\%`
anywhere. -/
def midLineComment (beforeMatch : List Char) : Bool :=
  beforeMatch.contains '%' && !(containsSub "\\%".data beforeMatch)

/-- Tail of the command-brace regex `/\\[a-zA-Z]+\{[^}]*$/`: after the
matched letters (at least one already consumed), more letters then the
backslash — scanning the reversed prefix. -/
def bsAfterAlphas : List Char → Bool
  | '\\' :: _ => true
  | c :: rest => c.isAlpha && bsAfterAlphas rest
  | [] => false

/-- Reversed-scan test for `/\\[a-zA-Z]+\{[^}]*$/` applied to the text before
the match: look for a `{` that is not followed (in the original order) by any
`}`, immediately preceded by one or more letters preceded by a backslash. -/
def revCmdCheck : List Char → Bool
  | [] => false
  | '}' :: _ => false
  | '{' :: rest =>
    (match rest with
     | c :: rest2 => (c.isAlpha && bsAfterAlphas rest2) || revCmdCheck rest
     | [] => false)
  | _ :: rest => revCmdCheck rest

/-- `commandPattern.test(textBeforeMatch)` for
`commandPattern = /\\[a-zA-Z]+\{[^}]*$/`. -/
def cmdOpenBefore (beforeMatch : List Char) : Bool :=
  revCmdCheck beforeMatch.reverse

/-- The second half of the command-brace branch: the text after the match has
a closing brace whose index is not `-1` and is smaller than the index of the
next opening brace (`-1` when absent, so a `}` with no later `{` does not
trigger the branch — this mirrors the source comparison exactly). -/
def closeThenOpenAfter (afterMatch : List Char) : Bool :=
  indexOfI '}' afterMatch ≠ -1 &&
  indexOfI '}' afterMatch < indexOfI '{' afterMatch

/-- `DuplicateWordChecker.isPartOfLatexCommand`.  The early returns of the
source become a disjunction of the four rejection conditions. -/
def isPartOfLatexCommand (lineText : List Char) (startChar endChar : Nat) :
    Bool :=
  if startChar > 0 ∧ lineText.getD (startChar - 1) ' ' = '\\' then true
  else
    let beforeMatch := lineText.take startChar
    let lastBegin := lastIndexOfSub "\\begin\x7b".data beforeMatch
    let lastEnd := lastIndexOfSub "\\end\x7b".data beforeMatch
    let beginHit :=
      if lastBegin > lastEnd ∧ lastBegin ≠ -1 then
        let afterBegin := lineText.drop lastBegin.toNat
        let closingBrace := indexOfI '}' afterBegin
        decide (closingBrace > 0 ∧ closingBrace > (startChar : Int) - lastBegin)
      else false
    let endHit :=
      if lastEnd > lastBegin ∧ lastEnd ≠ -1 then
        let afterEnd := lineText.drop lastEnd.toNat
        let closingBrace := indexOfI '}' afterEnd
        decide (closingBrace > 0 ∧ closingBrace > (startChar : Int) - lastEnd)
      else false
    let cmdHit :=
      cmdOpenBefore beforeMatch && closeThenOpenAfter (lineText.drop endChar)
    beginHit || endHit || cmdHit

/-- Build the `CheckResult` pushed for one accepted match. -/
def mkResult (line startChar : Nat) (slice : List Char) : CheckResult :=
  { range := { start := { line := line, character := startChar }
               stop := { line := line, character := startChar + slice.length } }
    message := "Duplicate word: \"" ++ (⟨slice⟩ : String) ++ "\""
    suggestion := "Consider using a synonym or rephrasing to avoid repetition."
    severity := "warning"
    issueType := "duplicate-word"
    text := ⟨slice⟩ }

/-- Results contributed by one line of the paragraph's range: skip
comment-only lines and lines with environment delimiters; otherwise filter
each whole-word match through `isPartOfLatexCommand` and the mid-line comment
check. -/
def lineResults (word : List Char) (lineText : List Char) (lineIdx : Nat) :
    List CheckResult :=
  if commentOnlyLine lineText then []
  else if envDelimLine lineText then []
  else
    (findMatches word lineText).filterMap (fun m =>
      if isPartOfLatexCommand lineText m.1 (m.1 + m.2.length) then none
      else if midLineComment (lineText.take m.1) then none
      else some (mkResult lineIdx m.1 m.2))

/-- The line loop of `findAllOccurrences`, with the host document's `lineAt`
modelled as the fallible list lookup: reading a line index outside the
document yields `none` (an exception).  The loop guard
`currentLine <= endLine && currentLine < document.lineCount` is the source's;
`fuel` is `endLine + 1 - startLine` at the entry point, exactly the number of
iterations the guard allows. -/
def findOccLoop (word : List Char) (doc : TextDocument) (endLine : Nat) :
    Nat → Nat → Option (List CheckResult)
  | 0, _ => some []
  | fuel + 1, currentLine =>
    if currentLine ≤ endLine ∧ currentLine < doc.lines.length then
      match doc.lines[currentLine]? with
      | none => none
      | some lineText =>
        (findOccLoop word doc endLine fuel (currentLine + 1)).map
          (fun rest => lineResults word lineText.data currentLine ++ rest)
    else some []

/-- `DuplicateWordChecker.findAllOccurrences` for one duplicate word over the
paragraph's original line range.  (The source's unused `paragraphText`
parameter is dropped.) -/
def findAllOccurrences (word : String) (doc : TextDocument)
    (startLine endLine : Nat) : Option (List CheckResult) :=
  findOccLoop word.data doc endLine (endLine + 1 - startLine) startLine

/-- `DuplicateWordChecker.check`: for each paragraph, find the duplicate
tokens and relocate each of them over the paragraph's line range. -/
def check (settings : DuplicateWordSettings) (context : DocumentContext) :
    List CheckResult :=
  context.paragraphs.flatMap (fun paragraph =>
    (findDuplicatesInText settings paragraph.text).flatMap (fun duplicateWord =>
      (findAllOccurrences duplicateWord context.document
        paragraph.startLine paragraph.endLine).getD []))

end DuplicateWordChecker

/-! ### Executor -/

namespace Executor

open DocumentParser DuplicateWordChecker

/-- A registered checker module, reduced to the capability the executor uses:
its enabled flag and its `check` function.  (`Executor.runChecks` iterates
`this.modules.values()` in registration order, modelled as a list.) -/
structure Module where
  name : String
  enabled : Bool
  check : DocumentContext → List CheckResult

/-- The per-document cache entry.  The source's `Map<number, string>` of
paragraph hashes always holds the keys `0 .. n-1`, so it is modelled as the
ordinal-indexed list of hashes; a `get` of an absent ordinal is the failing
lookup `none` (JavaScript `undefined`). -/
structure DocumentCache where
  paragraphHashes : List String
  results : List CheckResult
deriving Repr

/-- `Executor.runFullCheck`: concatenate the results of every enabled module
(the source's per-module try/catch has no effect on these total functions). -/
def runFullCheck (modules : List Module) (context : DocumentContext) :
    List CheckResult :=
  modules.flatMap (fun m => if m.enabled then m.check context else [])

/-- Placeholder paragraph for the (always in-range) list indexing of the
source. -/
def defaultParagraph : Paragraph :=
  { text := "", startLine := 0, endLine := 0, startOffset := 0, endOffset := 0 }

/-- `Executor.runIncrementalCheck`: run every enabled module over the context
restricted to the changed paragraphs. -/
def runIncrementalCheck (modules : List Module) (context : DocumentContext)
    (paragraphIndices : List Nat) : List CheckResult :=
  let filteredContext : DocumentContext :=
    { context with
      paragraphs := paragraphIndices.map
        (fun idx => context.paragraphs.getD idx defaultParagraph) }
  modules.flatMap (fun m => if m.enabled then m.check filteredContext else [])

/-- The ordinals whose cached fingerprint differs from the current one
(`changedParagraphIndices` in `Executor.runChecks`): the cached hash compares
`!==` against the freshly computed hash, with an absent cache entry
(`undefined`) always different. -/
def changedOrdinals (hashParagraph : String → String) (docCache : DocumentCache)
    (paragraphs : List Paragraph) : List Nat :=
  (List.range paragraphs.length).filter (fun i =>
    docCache.paragraphHashes[i]? ≠ (paragraphs.map (fun p => hashParagraph p.text))[i]?)

/-- `Executor.runChecks` for one document: parse, fingerprint, and take the
full / incremental / no-op branch.  The second component of the result is the
result list passed to `applyDecorations`, or `none` on the no-op branch
(where the source deliberately does not re-apply decorations).  `cached` is
the cache entry for the document, `none` when absent (the source then creates
the empty entry). -/
def runChecks (hashParagraph : String → String) (modules : List Module)
    (doc : TextDocument) (cached : Option DocumentCache) :
    DocumentCache × Option (List CheckResult) :=
  let context := parseDocument doc
  let docCache := cached.getD { paragraphHashes := [], results := [] }
  let currentHashes := context.paragraphs.map (fun p => hashParagraph p.text)
  let changedParagraphIndices := changedOrdinals hashParagraph docCache context.paragraphs
  if docCache.paragraphHashes.length ≠ context.paragraphs.length then
    let allResults := runFullCheck modules context
    ({ paragraphHashes := currentHashes, results := allResults }, some allResults)
  else if changedParagraphIndices.length > 0 then
    let newResults := runIncrementalCheck modules context changedParagraphIndices
    let unchangedResults := docCache.results.filter (fun result =>
      !(changedParagraphIndices.any (fun idx =>
        let para := context.paragraphs.getD idx defaultParagraph
        result.range.start.line ≥ para.startLine &&
        result.range.start.line ≤ para.endLine)))
    let allResults := unchangedResults ++ newResults
    ({ paragraphHashes := currentHashes, results := allResults }, some allResults)
  else
    (docCache, none)

/-- The duplicate-word checker registered as a module with its default
settings (as `ModuleRegistry.registerAll` does). -/
def duplicateWordModule : Module :=
  { name := "duplicate-word", enabled := true,
    check := DuplicateWordChecker.check DuplicateWordChecker.defaultSettings }

end Executor

/-! ### Concrete scenarios -/

open DocumentParser DuplicateWordChecker Executor

/-- Scenario A of the specification: a one-line LaTeX document with a
repeated non-excluded word and two excluded/singleton words. -/
def scenarioA : TextDocument :=
  { lines := ["Although Although the results"], languageId := "latex",
    fileName := "a.tex" }

/-- Scenario B of the specification: a one-line LaTeX document whose prose is
the braced argument of a formatting command. -/
def scenarioB : TextDocument :=
  { lines := ["\\textbf\x7bbold bold text\x7d"], languageId := "latex",
    fileName := "b.tex" }

/-- A LaTeX document with a table environment between prose lines. -/
def tableDoc : TextDocument :=
  { lines := ["word", "\\begin\x7btable\x7d", "cell cell", "\\end\x7btable\x7d"],
    languageId := "latex", fileName := "t.tex" }

/-- A one-line LaTeX document whose repeated word also occurs inside an
inline math span. -/
def mathDoc : TextDocument :=
  { lines := ["alpha alpha $alpha$"], languageId := "latex",
    fileName := "m.tex" }

/-- A stale one-paragraph cache entry used by the incremental-branch
witness. -/
def staleCache : DocumentCache :=
  { paragraphHashes := ["stale"], results := [] }

/-- A whole-word case-insensitive match of the token `w` at index `i` of the
line `s`: the characters of `s` from `i` on case-fold to `w`, the character
after the match (if any) is not a word character (this trailing boundary is
part of `matchCI`), and the character before the match (if any) is not a word
character. -/
def validMatch (w s : List Char) (i : Nat) : Prop :=
  matchCI w (s.drop i) = true ∧ (i = 0 ∨ wordChar (s.getD (i - 1) ' ') = false)

instance (w s : List Char) (i : Nat) : Decidable (validMatch w s i) := by
  unfold validMatch
  infer_instance

/-- Index `i` of line `l` lies inside an inline `$...$` math span: an odd
number of dollar signs precede it. -/
def insideInlineMath (l : List Char) (i : Nat) : Prop :=
  (l.take i).count '$' % 2 = 1

instance (l : List Char) (i : Nat) : Decidable (insideInlineMath l i) := by
  unfold insideInlineMath
  infer_instance

/-- C5: on the one-line document `Although Although the results` with the
default exclusion vocabulary, the pipeline (segment, then check) finds
exactly one duplicate candidate token, `although`, and produces exactly two
results, one per surface occurrence of `Although` (columns 0-8 and 9-17 of
line 0); no result is produced for `the` or `results`. -/
theorem scenarioA_results :
    findDuplicatesInText defaultSettings "Although Although the results" =
      ["although"] ∧
    DuplicateWordChecker.check defaultSettings (parseDocument scenarioA) =
      [mkResult 0 0 "Although".data, mkResult 0 9 "Although".data] ∧
    (parseDocument scenarioA).paragraphs =
      [{ text := "Although Although the results", startLine := 0, endLine := 0,
         startOffset := 0, endOffset := 29 }] := by
  refine ⟨by decide, by decide, by decide⟩

/-- C7: on the one-line document `\textbf{bold bold text}`, the detector
reports `bold` as duplicated with exactly two occurrences, at columns 8-12
and 13-17 of line 0 — both strictly inside the braces of the `\textbf`
command, whose opening brace is at column 7 and closing brace at column 22. -/
theorem scenarioB_results :
    DuplicateWordChecker.check defaultSettings (parseDocument scenarioB) =
      [mkResult 0 8 "bold".data, mkResult 0 13 "bold".data] ∧
    findDuplicatesInText defaultSettings "bold bold text" = ["bold"] ∧
    (parseDocument scenarioB).paragraphs =
      [{ text := "bold bold text", startLine := 0, endLine := 0,
         startOffset := 0, endOffset := 14 }] ∧
    (scenarioB.lines.getD 0 "").data.getD 7 ' ' = '{' ∧
    (scenarioB.lines.getD 0 "").data.getD 22 ' ' = '}' := by
  refine ⟨by decide, by decide, by decide, by decide, by decide⟩

/-- C6 counterexample: in `\textbf{bold bold text}` both matches of `bold`
start inside the braced argument of the `\textbf{...}` construct — an
unmatched `\textbf{` precedes each match with no intervening closing brace
(`cmdOpenBefore` is true for the prefixes of length 8 and 13) — yet both
matches are accepted and produce occurrences, contradicting the claim that
every such match is rejected. -/
theorem cmdBrace_reject_counterexample :
    (findAllOccurrences "bold" scenarioB 0 0).getD [] =
      [mkResult 0 8 "bold".data, mkResult 0 13 "bold".data] ∧
    cmdOpenBefore ((scenarioB.lines.getD 0 "").data.take 8) = true ∧
    cmdOpenBefore ((scenarioB.lines.getD 0 "").data.take 13) = true := by
  refine ⟨by decide, by decide, by decide⟩

/-- C8 counterexample: in a document whose lines 1-3 form a
`\begin{table} ... \end{table}` environment, the segmenter does not treat the
table as an excluded region: the produced paragraph spans lines 0-3 and its
flattened text still contains the table's content line `cell cell`. -/
theorem table_env_not_excluded_counterexample :
    parseLatexParagraphs tableDoc =
      [{ text := "word \\begin\x7btable\x7d cell cell \\end\x7btable\x7d",
         startLine := 0, endLine := 3, startOffset := 0, endOffset := 40 }] ∧
    containsStr "word \\begin\x7btable\x7d cell cell \\end\x7btable\x7d" "cell"
      = true := by
  refine ⟨by decide, by decide⟩

/-! ### Executor theorems -/

/-- After any pass, the cache entry's fingerprints are the hashes of the
current paragraphs (in all three branches of `runChecks`). -/
theorem runChecks_fst_hashes (f : String → String) (modules : List Module)
    (doc : TextDocument) (cached : Option DocumentCache) :
    (runChecks f modules doc cached).1.paragraphHashes =
      (parseDocument doc).paragraphs.map (fun p => f p.text) := by
  unfold runChecks
  by_cases h1 : (cached.getD ⟨[], []⟩).paragraphHashes.length ≠
      (parseDocument doc).paragraphs.length
  · rw [if_pos h1]
  · by_cases h2 : (changedOrdinals f (cached.getD ⟨[], []⟩)
        (parseDocument doc).paragraphs).length > 0
    · rw [if_neg h1, if_pos h2]
    · have h2' : changedOrdinals f (cached.getD ⟨[], []⟩)
          (parseDocument doc).paragraphs = [] := by
        rcases Nat.eq_zero_or_pos (changedOrdinals f (cached.getD ⟨[], []⟩)
          (parseDocument doc).paragraphs).length with h | h
        · exact List.length_eq_zero.mp h
        · exact absurd h h2
      have hext : (cached.getD ⟨[], []⟩).paragraphHashes =
          (parseDocument doc).paragraphs.map (fun p => f p.text) := by
        apply List.ext_getElem?
        intro i
        by_cases hi : i < (parseDocument doc).paragraphs.length
        · have hmem : i ∈ List.range (parseDocument doc).paragraphs.length :=
            List.mem_range.mpr hi
          have := List.filter_eq_nil_iff.mp h2' i hmem
          simpa using this
        · push_neg at h1 hi
          rw [List.getElem?_eq_none (by omega),
            List.getElem?_eq_none (by simpa using hi)]
      rw [if_neg h1, if_neg h2]
      exact hext

/-- C1: running the pass twice on the same document with no change in between
makes the second call a no-op: the cache entry is returned unchanged (so the
result list is identical both times), every per-ordinal fingerprint computed
on the second call equals the cached one (second conjunct), and the second
call hands nothing to `applyDecorations` (the `none` component). -/
theorem runChecks_second_pass_noop (f : String → String) (modules : List Module)
    (doc : TextDocument) (cached : Option DocumentCache) (c1 : DocumentCache)
    (a1 : Option (List CheckResult))
    (h : runChecks f modules doc cached = (c1, a1)) :
    runChecks f modules doc (some c1) = (c1, none) ∧
    c1.paragraphHashes = (parseDocument doc).paragraphs.map (fun p => f p.text) := by
  have hh : c1.paragraphHashes =
      (parseDocument doc).paragraphs.map (fun p => f p.text) := by
    have h0 := runChecks_fst_hashes f modules doc cached
    rw [h] at h0
    exact h0
  refine ⟨?_, hh⟩
  unfold runChecks
  have hlen : ¬ ((some c1).getD ⟨[], []⟩).paragraphHashes.length ≠
      (parseDocument doc).paragraphs.length := by
    simp [hh]
  have hch : changedOrdinals f c1 (parseDocument doc).paragraphs = [] := by
    unfold changedOrdinals
    rw [List.filter_eq_nil_iff]
    intro i _
    simp [hh]
  rw [if_neg hlen, if_neg (by simp only [Option.getD_some, hch]; simp)]
  rfl

/-- C1 witness: a concrete second pass (identity hash, the registered
duplicate-word module, scenario A) is a no-op. -/
theorem runChecks_second_pass_noop_witness :
    runChecks (fun s => s) [duplicateWordModule] scenarioA
        (some (runChecks (fun s => s) [duplicateWordModule] scenarioA none).1) =
      ((runChecks (fun s => s) [duplicateWordModule] scenarioA none).1, none) ∧
    (runChecks (fun s => s) [duplicateWordModule] scenarioA none).1.paragraphHashes =
      (parseDocument scenarioA).paragraphs.map (fun p => p.text) :=
  runChecks_second_pass_noop (fun s => s) [duplicateWordModule] scenarioA none _ _ rfl

/-- C2: whenever the cached fingerprint count differs from the current
paragraph count (in particular on the first pass, whose fresh cache entry is
empty), the pass runs the full check over all paragraphs, replaces the whole
cache entry with the fresh fingerprints and the fresh results, and renders
exactly those fresh results — no cached result survives. -/
theorem runChecks_count_change_full_recheck (f : String → String)
    (modules : List Module) (doc : TextDocument) (cached : Option DocumentCache)
    (h : (cached.getD ⟨[], []⟩).paragraphHashes.length ≠
      (parseDocument doc).paragraphs.length) :
    runChecks f modules doc cached =
      ({ paragraphHashes :=
           (parseDocument doc).paragraphs.map (fun p => f p.text),
         results := runFullCheck modules (parseDocument doc) },
       some (runFullCheck modules (parseDocument doc))) := by
  unfold runChecks
  rw [if_pos h]

/-- C2 witness: the first pass on scenario A (no cache entry, one paragraph)
takes the full-recheck branch. -/
theorem runChecks_count_change_full_recheck_witness :
    ((none : Option DocumentCache).getD ⟨[], []⟩).paragraphHashes.length ≠
      (parseDocument scenarioA).paragraphs.length ∧
    runChecks (fun s => s) [duplicateWordModule] scenarioA none =
      ({ paragraphHashes :=
           (parseDocument scenarioA).paragraphs.map (fun p => p.text),
         results := runFullCheck [duplicateWordModule] (parseDocument scenarioA) },
       some (runFullCheck [duplicateWordModule] (parseDocument scenarioA))) :=
  ⟨by decide,
   runChecks_count_change_full_recheck (fun s => s) [duplicateWordModule]
     scenarioA none (by decide)⟩

/-- C3: when the paragraph count is unchanged but some fingerprints differ,
the new result list is the cached results minus those whose start line falls
in the line range of a changed paragraph, followed by the detector's fresh
results over exactly the changed paragraphs; the cache entry is replaced by
the current fingerprints and this merged list, which is also what is
rendered. -/
theorem runChecks_fingerprint_change_incremental (f : String → String)
    (modules : List Module) (doc : TextDocument) (cache : DocumentCache)
    (hlen : cache.paragraphHashes.length = (parseDocument doc).paragraphs.length)
    (hch : changedOrdinals f cache (parseDocument doc).paragraphs ≠ []) :
    runChecks f modules doc (some cache) =
      ({ paragraphHashes :=
           (parseDocument doc).paragraphs.map (fun p => f p.text),
         results :=
           cache.results.filter (fun result =>
             !((changedOrdinals f cache (parseDocument doc).paragraphs).any
               (fun idx =>
                 result.range.start.line ≥
                   ((parseDocument doc).paragraphs.getD idx defaultParagraph).startLine &&
                 result.range.start.line ≤
                   ((parseDocument doc).paragraphs.getD idx defaultParagraph).endLine))) ++
           runFullCheck modules
             { parseDocument doc with
               paragraphs :=
                 (changedOrdinals f cache (parseDocument doc).paragraphs).map
                   (fun idx =>
                     (parseDocument doc).paragraphs.getD idx defaultParagraph) } },
       some
         (cache.results.filter (fun result =>
             !((changedOrdinals f cache (parseDocument doc).paragraphs).any
               (fun idx =>
                 result.range.start.line ≥
                   ((parseDocument doc).paragraphs.getD idx defaultParagraph).startLine &&
                 result.range.start.line ≤
                   ((parseDocument doc).paragraphs.getD idx defaultParagraph).endLine))) ++
           runFullCheck modules
             { parseDocument doc with
               paragraphs :=
                 (changedOrdinals f cache (parseDocument doc).paragraphs).map
                   (fun idx =>
                     (parseDocument doc).paragraphs.getD idx defaultParagraph) })) := by
  unfold runChecks
  rw [if_neg (by simp [hlen]),
    if_pos (by simp only [Option.getD_some]; exact List.length_pos.mpr hch)]
  rfl

/-- C3 witness: scenario A against a cache entry with one stale fingerprint
takes the incremental branch. -/
theorem runChecks_fingerprint_change_incremental_witness :
    staleCache.paragraphHashes.length = (parseDocument scenarioA).paragraphs.length ∧
    changedOrdinals (fun s => s) staleCache (parseDocument scenarioA).paragraphs ≠ [] ∧
    runChecks (fun s => s) [duplicateWordModule] scenarioA (some staleCache) =
      ({ paragraphHashes :=
           (parseDocument scenarioA).paragraphs.map (fun p => p.text),
         results :=
           staleCache.results.filter (fun result =>
             !((changedOrdinals (fun s => s) staleCache (parseDocument scenarioA).paragraphs).any
               (fun idx =>
                 result.range.start.line ≥
                   ((parseDocument scenarioA).paragraphs.getD idx defaultParagraph).startLine &&
                 result.range.start.line ≤
                   ((parseDocument scenarioA).paragraphs.getD idx defaultParagraph).endLine))) ++
           runFullCheck [duplicateWordModule]
             { parseDocument scenarioA with
               paragraphs :=
                 (changedOrdinals (fun s => s) staleCache (parseDocument scenarioA).paragraphs).map
                   (fun idx =>
                     (parseDocument scenarioA).paragraphs.getD idx defaultParagraph) } },
       some
         (staleCache.results.filter (fun result =>
             !((changedOrdinals (fun s => s) staleCache (parseDocument scenarioA).paragraphs).any
               (fun idx =>
                 result.range.start.line ≥
                   ((parseDocument scenarioA).paragraphs.getD idx defaultParagraph).startLine &&
                 result.range.start.line ≤
                   ((parseDocument scenarioA).paragraphs.getD idx defaultParagraph).endLine))) ++
           runFullCheck [duplicateWordModule]
             { parseDocument scenarioA with
               paragraphs :=
                 (changedOrdinals (fun s => s) staleCache (parseDocument scenarioA).paragraphs).map
                   (fun idx =>
                     (parseDocument scenarioA).paragraphs.getD idx defaultParagraph) })) :=
  ⟨by decide, by decide,
   runChecks_fingerprint_change_incremental (fun s => s) [duplicateWordModule]
     scenarioA staleCache (by decide) (by decide)⟩

/-! ### Detector lemmas -/

/-- The line loop of the detector never fails: the source guard
`currentLine < document.lineCount` keeps every `lineAt` read in bounds. -/
theorem findOccLoop_isSome (w : List Char) (doc : TextDocument) (e : Nat) :
    ∀ fuel cur, (findOccLoop w doc e fuel cur).isSome = true := by
  intro fuel
  induction fuel with
  | zero => intro cur; rfl
  | succ n ih =>
    intro cur
    unfold findOccLoop
    by_cases h : cur ≤ e ∧ cur < doc.lines.length
    · rw [if_pos h, List.getElem?_eq_getElem h.2]
      simpa using ih (cur + 1)
    · rw [if_neg h]
      rfl

/-- Soundness of the line loop: every produced result comes from the
`lineResults` of some line index within both the requested range and the
document. -/
theorem mem_findOccLoop (w : List Char) (doc : TextDocument) (e : Nat) :
    ∀ fuel cur r, r ∈ (findOccLoop w doc e fuel cur).getD [] →
      ∃ j, cur ≤ j ∧ j ≤ e ∧ j < doc.lines.length ∧
        r ∈ lineResults w (doc.lines.getD j "").data j := by
  intro fuel
  induction fuel with
  | zero => intro cur r hr; simp [findOccLoop] at hr
  | succ n ih =>
    intro cur r hr
    unfold findOccLoop at hr
    by_cases h : cur ≤ e ∧ cur < doc.lines.length
    · rw [if_pos h, List.getElem?_eq_getElem h.2] at hr
      obtain ⟨v, hv⟩ :=
        Option.isSome_iff_exists.mp (findOccLoop_isSome w doc e n (cur + 1))
      rw [hv] at hr
      simp only [Option.map_some, Option.getD_some] at hr
      rcases List.mem_append.mp hr with hl | hrr
      · refine ⟨cur, le_refl _, h.1, h.2, ?_⟩
        have heq : doc.lines.getD cur "" = doc.lines[cur] := by
          simp [List.getD, List.getElem?_eq_getElem h.2]
        rw [heq]
        exact hl
      · obtain ⟨j, hj1, hj2, hj3, hj4⟩ := ih (cur + 1) r (by rw [hv]; exact hrr)
        exact ⟨j, by omega, hj2, hj3, hj4⟩
    · rw [if_neg h] at hr
      simp at hr

/-- Completeness of the line loop: a result contributed by an in-range line
appears in the loop's output. -/
theorem findOccLoop_mem_of (w : List Char) (doc : TextDocument) (e j : Nat)
    (r : CheckResult) (hje : j ≤ e) (hjl : j < doc.lines.length)
    (hmem : r ∈ lineResults w (doc.lines.getD j "").data j) :
    ∀ fuel cur, cur ≤ j → fuel = e + 1 - cur →
      r ∈ (findOccLoop w doc e fuel cur).getD [] := by
  intro fuel
  induction fuel with
  | zero => intro cur hcur hf; omega
  | succ n ih =>
    intro cur hcur hf
    have hce : cur ≤ e := by omega
    have hcl : cur < doc.lines.length := by omega
    unfold findOccLoop
    rw [if_pos ⟨hce, hcl⟩, List.getElem?_eq_getElem hcl]
    obtain ⟨v, hv⟩ :=
      Option.isSome_iff_exists.mp (findOccLoop_isSome w doc e n (cur + 1))
    rw [hv]
    simp only [Option.map_some, Option.getD_some]
    apply List.mem_append.mpr
    rcases Nat.eq_or_lt_of_le hcur with hcj | hcj
    · left
      have heq : doc.lines.getD cur "" = doc.lines[cur] := by
        simp [List.getD, List.getElem?_eq_getElem hcl]
      rw [← heq, hcj]
      exact hmem
    · right
      have := ih (cur + 1) (by omega) (by omega)
      rw [hv] at this
      simpa using this

/-- Soundness of the per-line filter: every result of `lineResults` comes from
a whole-word match that passed the comment, environment, command and mid-line
comment filters. -/
theorem mem_lineResults (w l : List Char) (idx : Nat) (r : CheckResult)
    (h : r ∈ lineResults w l idx) :
    commentOnlyLine l = false ∧ envDelimLine l = false ∧
    ∃ m ∈ findMatches w l,
      isPartOfLatexCommand l m.1 (m.1 + m.2.length) = false ∧
      midLineComment (l.take m.1) = false ∧
      r = mkResult idx m.1 m.2 := by
  unfold lineResults at h
  by_cases h1 : commentOnlyLine l
  · rw [if_pos h1] at h
    simp at h
  · rw [if_neg h1] at h
    by_cases h2 : envDelimLine l
    · rw [if_pos h2] at h
      simp at h
    · rw [if_neg h2] at h
      obtain ⟨m, hm, heq⟩ := List.mem_filterMap.mp h
      by_cases h3 : isPartOfLatexCommand l m.1 (m.1 + m.2.length)
      · rw [if_pos h3] at heq
        simp at heq
      · rw [if_neg h3] at heq
        by_cases h4 : midLineComment (l.take m.1)
        · rw [if_pos h4] at heq
          simp at heq
        · rw [if_neg h4] at heq
          simp only [Option.some_inj] at heq
          exact ⟨Bool.eq_false_iff.mpr h1, Bool.eq_false_iff.mpr h2, m, hm,
            Bool.eq_false_iff.mpr h3, Bool.eq_false_iff.mpr h4, heq.symm⟩

/-- Completeness of the per-line filter. -/
theorem lineResults_mem_of (w l : List Char) (idx : Nat) (m : Nat × List Char)
    (h1 : commentOnlyLine l = false) (h2 : envDelimLine l = false)
    (hm : m ∈ findMatches w l)
    (h3 : isPartOfLatexCommand l m.1 (m.1 + m.2.length) = false)
    (h4 : midLineComment (l.take m.1) = false) :
    mkResult idx m.1 m.2 ∈ lineResults w l idx := by
  unfold lineResults
  rw [if_neg (by simp [h1]), if_neg (by simp [h2])]
  apply List.mem_filterMap.mpr
  refine ⟨m, hm, ?_⟩
  rw [if_neg (by simp [h3]), if_neg (by simp [h4])]

/-- A character that case-folds to a word character is itself a word
character. -/
theorem wordChar_of_lower (d c : Char) (h : lowerChar d = c)
    (hc : wordChar c = true) : wordChar d = true := by
  unfold lowerChar at h
  by_cases hd : 'A' ≤ d ∧ d ≤ 'Z'
  · unfold wordChar
    simp [hd.1, hd.2]
  · rw [if_neg hd] at h
    rw [h]
    exact hc

/-- A successful `matchCI` means the matched slice case-folds exactly to the
pattern. -/
theorem matchCI_map_lower : ∀ (w t : List Char), matchCI w t = true →
    (t.take w.length).map lowerChar = w := by
  intro w
  induction w with
  | nil => intro t _; simp
  | cons c cs ih =>
    intro t h
    cases t with
    | nil => simp [matchCI] at h
    | cons d ds =>
      unfold matchCI at h
      rw [Bool.and_eq_true] at h
      have hd : lowerChar d = c := by simpa using h.1
      simp only [List.length_cons, List.take_succ_cons, List.map_cons, hd]
      rw [ih ds h.2]

/-- A successful `matchCI` needs at least pattern-many characters. -/
theorem matchCI_le_length : ∀ (w t : List Char), matchCI w t = true →
    w.length ≤ t.length := by
  intro w
  induction w with
  | nil => intro t _; simp
  | cons c cs ih =>
    intro t h
    cases t with
    | nil => simp [matchCI] at h
    | cons d ds =>
      unfold matchCI at h
      rw [Bool.and_eq_true] at h
      have := ih ds h.2
      simpa using this

/-- On an all-word-character pattern, every character of a successful match is
a word character. -/
theorem matchCI_wordChar : ∀ (w t : List Char),
    (∀ c ∈ w, wordChar c = true) → matchCI w t = true →
    ∀ k, k < w.length → wordChar (t.getD k ' ') = true := by
  intro w
  induction w with
  | nil => intro t _ _ k hk; simp at hk
  | cons c cs ih =>
    intro t hw h k hk
    cases t with
    | nil => simp [matchCI] at h
    | cons d ds =>
      unfold matchCI at h
      rw [Bool.and_eq_true] at h
      cases k with
      | zero =>
        have hd : lowerChar d = c := by simpa using h.1
        exact wordChar_of_lower d c hd (hw c (by simp))
      | succ k =>
        have := ih ds (fun x hx => hw x (by simp [hx])) h.2 k (by simpa using hk)
        simpa using this

/-- Every slice emitted by the match scanner case-folds to the pattern. -/
theorem findMatchesAux_slice (w : List Char) :
    ∀ fuel pw j s i sl, (i, sl) ∈ findMatchesAux w fuel pw j s →
      sl.map lowerChar = w := by
  intro fuel
  induction fuel with
  | zero => intro pw j s i sl h; simp [findMatchesAux] at h
  | succ n ih =>
    intro pw j s i sl h
    cases s with
    | nil => simp [findMatchesAux] at h
    | cons d ds =>
      unfold findMatchesAux at h
      by_cases hc : (!pw && matchCI w (d :: ds)) = true
      · rw [if_pos hc] at h
        rcases List.mem_cons.mp h with heq | htail
        · rw [Prod.ext_iff] at heq
          simp only at heq
          rw [heq.2]
          refine matchCI_map_lower w (d :: ds) ?_
          rw [Bool.and_eq_true] at hc
          exact hc.2
        · exact ih true (j + w.length) ((d :: ds).drop w.length) i sl htail
      · rw [if_neg hc] at h
        exact ih (wordChar d) (j + 1) ds i sl h

/-- The line index stored in every result of `lineResults` is the index of
the line it was found on. -/
theorem lineResults_line (w l : List Char) (idx : Nat) (r : CheckResult)
    (h : r ∈ lineResults w l idx) : r.range.start.line = idx := by
  obtain ⟨_, _, m, _, _, _, heq⟩ := mem_lineResults w l idx r h
  rw [heq]
  rfl

/-- C9: the detector's re-location never raises even when the paragraph's
line range extends past the end of the document: `findAllOccurrences` always
succeeds (the fallible `lineAt` is never called out of bounds), and every
produced occurrence lies on a line strictly below the document's line count
(lines at or past it are skipped and contribute nothing). -/
theorem findAllOccurrences_never_raises (word : String) (doc : TextDocument)
    (startLine endLine : Nat) :
    (findAllOccurrences word doc startLine endLine).isSome = true ∧
    ∀ r ∈ (findAllOccurrences word doc startLine endLine).getD [],
      r.range.start.line < doc.lines.length := by
  constructor
  · exact findOccLoop_isSome word.data doc endLine _ startLine
  · intro r hr
    obtain ⟨j, _, _, hj, hmem⟩ :=
      mem_findOccLoop word.data doc endLine _ startLine r hr
    rw [lineResults_line _ _ _ _ hmem]
    exact hj

/-- C9 witness: a one-line document scanned with `endLine = 5` (far past the
end) still succeeds, produces a result, and that result is in bounds. -/
theorem findAllOccurrences_never_raises_witness :
    (findAllOccurrences "alpha" mathDoc 0 5).isSome = true ∧
    mkResult 0 0 "alpha".data ∈ (findAllOccurrences "alpha" mathDoc 0 5).getD [] ∧
    (mkResult 0 0 "alpha".data).range.start.line < mathDoc.lines.length :=
  ⟨(findAllOccurrences_never_raises "alpha" mathDoc 0 5).1, by decide,
   (findAllOccurrences_never_raises "alpha" mathDoc 0 5).2 _ (by decide)⟩

/-- Keys of the counting map after one update. -/
theorem keys_bumpCount (acc : List (String × Nat)) (wd q : String)
    (h : q ∈ (bumpCount acc wd).map Prod.fst) :
    q ∈ acc.map Prod.fst ∨ q = wd := by
  induction acc with
  | nil =>
    simp [bumpCount] at h
    exact Or.inr h
  | cons p rest ih =>
    obtain ⟨k, c⟩ := p
    unfold bumpCount at h
    by_cases hp : k = wd
    · rw [if_pos hp] at h
      simp only [List.map_cons] at h ⊢
      exact Or.inl h
    · rw [if_neg hp] at h
      simp only [List.map_cons] at h ⊢
      rcases List.mem_cons.mp h with h1 | h1
      · exact Or.inl (List.mem_cons.mpr (Or.inl h1))
      · rcases ih h1 with h2 | h2
        · exact Or.inl (List.mem_cons.mpr (Or.inr h2))
        · exact Or.inr h2

/-- Every key of the word-count map is a key of the initial map or one of the
counted words. -/
theorem mem_foldl_bumpCount (l : List String) :
    ∀ (acc : List (String × Nat)) (p : String × Nat),
      p ∈ l.foldl bumpCount acc → p.1 ∈ acc.map Prod.fst ∨ p.1 ∈ l := by
  induction l with
  | nil =>
    intro acc p h
    simp only [List.foldl_nil] at h
    left
    exact List.mem_map_of_mem _ h
  | cons wd ws ih =>
    intro acc p h
    simp only [List.foldl_cons] at h
    rcases ih (bumpCount acc wd) p h with hk | hk
    · rcases keys_bumpCount acc wd p.1 hk with h1 | h1
      · left; exact h1
      · right; simp [h1]
    · right; simp [hk]

/-- Candidate tokens are never members of the exclusion vocabulary: the
vocabulary filter runs before counting. -/
theorem mem_findDuplicates_not_excluded (settings : DuplicateWordSettings)
    (text : String) (w : String) (h : w ∈ findDuplicatesInText settings text) :
    (getExcludedWords settings).contains w = false := by
  unfold findDuplicatesInText at h
  obtain ⟨p, hp, hpw⟩ := List.mem_map.mp h
  have hpc := (List.mem_filter.mp hp).1
  have hkey := mem_foldl_bumpCount _ [] p hpc
  simp only [List.map_nil, List.not_mem_nil, false_or] at hkey
  rw [hpw] at hkey
  have := (List.mem_filter.mp hkey).2
  simpa using this

/-- Every match of `findMatches` case-folds to the pattern. -/
theorem mem_findMatches_slice (w s : List Char) (m : Nat × List Char)
    (h : m ∈ findMatches w s) : m.2.map lowerChar = w := by
  unfold findMatches at h
  by_cases he : w.isEmpty
  · rw [if_pos he] at h
    simp at h
  · rw [if_neg he] at h
    obtain ⟨i, sl⟩ := m
    exact findMatchesAux_slice w s.length false 0 s i sl h

/-- The matched text of every occurrence case-folds to the word the detector
was re-locating. -/
theorem mem_findAllOccurrences_textLower (word : String) (doc : TextDocument)
    (s e : Nat) (r : CheckResult)
    (h : r ∈ (findAllOccurrences word doc s e).getD []) :
    strLower r.text = word := by
  obtain ⟨j, _, _, _, hmem⟩ := mem_findOccLoop word.data doc e _ s r h
  obtain ⟨_, _, m, hm, _, _, heq⟩ := mem_lineResults _ _ _ _ hmem
  have hsl := mem_findMatches_slice word.data _ m hm
  rw [heq]
  show strLower ⟨m.2⟩ = word
  unfold strLower
  show (⟨m.2.map lowerChar⟩ : String) = word
  rw [hsl]

/-- Every result of `check` comes from some paragraph and some duplicate
candidate of that paragraph. -/
theorem mem_check (settings : DuplicateWordSettings) (ctx : DocumentContext)
    (r : CheckResult) (h : r ∈ DuplicateWordChecker.check settings ctx) :
    ∃ para ∈ ctx.paragraphs, ∃ w ∈ findDuplicatesInText settings para.text,
      r ∈ (findAllOccurrences w ctx.document para.startLine para.endLine).getD [] := by
  unfold DuplicateWordChecker.check at h
  obtain ⟨para, hpara, h2⟩ := List.mem_flatMap.mp h
  obtain ⟨w, hw, h3⟩ := List.mem_flatMap.mp h2
  exact ⟨para, hpara, w, hw, h3⟩

/-- C4: for every token of the exclusion vocabulary (global tier and project
tier combined), the checker never produces a result for that token: the
case-normalised matched text of every produced result differs from it,
whatever the document and however often the token repeats. -/
theorem excluded_token_never_reported (settings : DuplicateWordSettings)
    (ctx : DocumentContext) (t : String) (ht : t ∈ getExcludedWords settings)
    (r : CheckResult) (hr : r ∈ DuplicateWordChecker.check settings ctx) :
    strLower r.text ≠ t := by
  obtain ⟨para, _, w, hw, hocc⟩ := mem_check settings ctx r hr
  have h1 : strLower r.text = w :=
    mem_findAllOccurrences_textLower w ctx.document para.startLine para.endLine r hocc
  have h2 : (getExcludedWords settings).contains w = false :=
    mem_findDuplicates_not_excluded settings para.text w hw
  intro hEq
  rw [h1] at hEq
  rw [hEq] at h2
  have helem := List.elem_eq_true_of_mem ht
  have hb : List.elem t (getExcludedWords settings) = false := h2
  rw [hb] at helem
  exact Bool.false_ne_true helem

/-- C4 witness: `the` is excluded, scenario A produces a result for
`Although`, and that result is not for `the`. -/
theorem excluded_token_never_reported_witness :
    "the" ∈ getExcludedWords defaultSettings ∧
    mkResult 0 0 "Although".data ∈
      DuplicateWordChecker.check defaultSettings (parseDocument scenarioA) ∧
    strLower (mkResult 0 0 "Although".data).text ≠ "the" :=
  ⟨by decide, by decide,
   excluded_token_never_reported defaultSettings (parseDocument scenarioA) "the"
     (by decide) (mkResult 0 0 "Although".data) (by decide)⟩

/-- If `isPartOfLatexCommand` rejected nothing, its command-brace branch in
particular did not fire. -/
theorem cmdHit_false_of_not_latex (l : List Char) (a b : Nat)
    (h : isPartOfLatexCommand l a b = false) :
    ¬(cmdOpenBefore (l.take a) = true ∧ closeThenOpenAfter (l.drop b) = true) := by
  unfold isPartOfLatexCommand at h
  by_cases h0 : a > 0 ∧ l.getD (a - 1) ' ' = '\\'
  · rw [if_pos h0] at h
    exact absurd h (by simp)
  · rw [if_neg h0] at h
    intro hc
    simp only [Bool.or_eq_false_iff, Bool.and_eq_false_iff] at h
    rcases h.2 with hx | hx
    · rw [hc.1] at hx
      exact absurd hx (by simp)
    · rw [hc.2] at hx
      exact absurd hx (by simp)

/-- C6 (amended): a match lying inside the braced argument of a
`command{...}` construct (an unmatched `\command{` opening precedes it with
no intervening closing brace, i.e. `cmdOpenBefore`) is rejected only when,
in addition, the remainder of the line after the match contains a closing
brace appearing before a subsequent opening brace (`closeThenOpenAfter`);
consequently no accepted occurrence satisfies both conditions, but a match
inside braces with no later `{` (as in scenario B) is accepted. -/
theorem cmdBrace_accept_requires_no_close_then_open (word : String)
    (doc : TextDocument) (s e : Nat) (r : CheckResult) (lineStr : String)
    (hr : r ∈ (findAllOccurrences word doc s e).getD [])
    (hline : doc.lines[r.range.start.line]? = some lineStr) :
    ¬(cmdOpenBefore (lineStr.data.take r.range.start.character) = true ∧
      closeThenOpenAfter (lineStr.data.drop r.range.stop.character) = true) := by
  obtain ⟨j, _, _, hjl, hmem⟩ := mem_findOccLoop word.data doc e _ s r hr
  have hlineq : r.range.start.line = j := lineResults_line _ _ _ _ hmem
  obtain ⟨_, _, m, hm, hcmd, _, heq⟩ := mem_lineResults _ _ _ _ hmem
  rw [hlineq] at hline
  rw [List.getElem?_eq_getElem hjl] at hline
  have hl : lineStr = doc.lines.getD j "" := by
    simp only [Option.some_inj] at hline
    rw [← hline]
    simp [List.getD, List.getElem?_eq_getElem hjl]
  have hstart : r.range.start.character = m.1 := by rw [heq]; rfl
  have hstop : r.range.stop.character = m.1 + m.2.length := by rw [heq]; rfl
  rw [hstart, hstop, hl]
  exact cmdHit_false_of_not_latex _ _ _ hcmd

/-- C6 amended-claim witness: the first accepted `bold` occurrence of
scenario B has an unmatched command opening before it, so by the theorem the
close-then-open condition must fail there. -/
theorem cmdBrace_accept_requires_no_close_then_open_witness :
    mkResult 0 8 "bold".data ∈ (findAllOccurrences "bold" scenarioB 0 0).getD [] ∧
    scenarioB.lines[(mkResult 0 8 "bold".data).range.start.line]? =
      some "\\textbf\x7bbold bold text\x7d" ∧
    ¬(cmdOpenBefore ("\\textbf\x7bbold bold text\x7d".data.take
        (mkResult 0 8 "bold".data).range.start.character) = true ∧
      closeThenOpenAfter ("\\textbf\x7bbold bold text\x7d".data.drop
        (mkResult 0 8 "bold".data).range.stop.character) = true) :=
  ⟨by decide, by decide,
   cmdBrace_accept_requires_no_close_then_open "bold" scenarioB 0 0
     (mkResult 0 8 "bold".data) "\\textbf\x7bbold bold text\x7d"
     (by decide) (by decide)⟩

/-- C8 (amended): the segmenter does not exclude table environments (see the
counterexample); what the code does instead is (a) the detector's re-location
skips every line containing the `\begin{table}` marker, so no occurrence is
ever located on such a line, and (b) in the segmenter, a line that opens one
of the recognised math environments (equation, align, gather, multline,
flalign, alignat) closes any paragraph being accumulated. -/
theorem table_lines_skipped_and_math_begin_flushes :
    (∀ (word : String) (doc : TextDocument) (s e : Nat) (r : CheckResult)
        (lineStr : String),
        r ∈ (findAllOccurrences word doc s e).getD [] →
        doc.lines[r.range.start.line]? = some lineStr →
        containsStr lineStr "\\begin\x7btable\x7d" = false) ∧
    (∀ (st : SegState) (idx : Nat) (line : String),
        st.inBib = false → bibEndLine line = false → mathBeginLine line = true →
        (segStep st idx line).cur = []) := by
  constructor
  · intro word doc s e r lineStr hr hline
    obtain ⟨j, _, _, hjl, hmem⟩ := mem_findOccLoop word.data doc e _ s r hr
    have hlineq : r.range.start.line = j := lineResults_line _ _ _ _ hmem
    obtain ⟨_, henv, _, _, _, _, _⟩ := mem_lineResults _ _ _ _ hmem
    rw [hlineq, List.getElem?_eq_getElem hjl] at hline
    have hl : lineStr = doc.lines.getD j "" := by
      simp only [Option.some_inj] at hline
      rw [← hline]
      simp [List.getD, List.getElem?_eq_getElem hjl]
    unfold envDelimLine at henv
    simp only [Bool.or_eq_false_iff] at henv
    rw [hl]
    exact henv.1.2
  · intro st idx line hbib hbe hmb
    unfold segStep
    by_cases h1 : bibBeginLine line
    · rw [if_pos h1]
    · rw [if_neg h1, if_neg (by simp [hbe]), if_neg (by simp [hbib])]
      simp only [hmb, if_true]
      by_cases h2 : mathEndLine line
      · rw [if_pos h2]
      · rw [if_neg h2]

/-- C8 amended-claim witness: no `bold` occurrence of scenario B lies on a
table-marker line, and a `\begin{equation}` line flushes a nonempty
accumulation. -/
theorem table_lines_skipped_and_math_begin_flushes_witness :
    containsStr "\\textbf\x7bbold bold text\x7d" "\\begin\x7btable\x7d" = false ∧
    (segStep { inMath := false, inBib := false, cur := ["word"], curNums := [0],
               paras := [] } 1 "\\begin\x7bequation\x7d").cur = [] :=
  ⟨table_lines_skipped_and_math_begin_flushes.1 "bold" scenarioB 0 0
     (mkResult 0 8 "bold".data) "\\textbf\x7bbold bold text\x7d"
     (by decide) (by decide),
   table_lines_skipped_and_math_begin_flushes.2
     { inMath := false, inBib := false, cur := ["word"], curNums := [0],
       paras := [] } 1 "\\begin\x7bequation\x7d" rfl (by decide) (by decide)⟩

/-- Completeness of the match scanner: any whole-word match inside the
remaining text is emitted.  `rest` is the unscanned tail, `j` its absolute
start index, `m` the offset of the match inside `rest`; the two boundary
hypotheses express the leading `\b` (through the tracked `pw` flag at offset
zero, through the preceding character otherwise). -/
theorem findMatchesAux_complete (w : List Char) (hw : w ≠ [])
    (hwc : ∀ c ∈ w, wordChar c = true) :
    ∀ (fuel : Nat) (rest : List Char) (j m : Nat) (pw : Bool),
      rest.length ≤ fuel →
      matchCI w (rest.drop m) = true →
      (m = 0 → pw = false) →
      (m ≠ 0 → wordChar (rest.getD (m - 1) ' ') = false) →
      (j + m, (rest.drop m).take w.length) ∈ findMatchesAux w fuel pw j rest := by
  have hL : 0 < w.length := List.length_pos.mpr hw
  intro fuel
  induction fuel with
  | zero =>
    intro rest j m pw hlen hm _ _
    have hnil : rest = [] := List.eq_nil_of_length_eq_zero (by omega)
    subst hnil
    rw [List.drop_nil] at hm
    cases w with
    | nil => exact absurd rfl hw
    | cons c cs => simp [matchCI] at hm
  | succ n ih =>
    intro rest j m pw hlen hm hm0 hmne
    cases rest with
    | nil =>
      rw [List.drop_nil] at hm
      cases w with
      | nil => exact absurd rfl hw
      | cons c cs => simp [matchCI] at hm
    | cons d ds =>
      unfold findMatchesAux
      cases m with
      | zero =>
        have hpw : pw = false := hm0 rfl
        rw [List.drop_zero] at hm
        rw [if_pos (by rw [hpw, hm]; rfl)]
        exact List.mem_cons.mpr (Or.inl (by simp))
      | succ m' =>
        by_cases hb : (!pw && matchCI w (d :: ds)) = true
        · -- a match is emitted at the current position; the target lies
          -- strictly beyond it since word-boundary matches cannot overlap
          have hmatchHere : matchCI w (d :: ds) = true := by
            rw [Bool.and_eq_true] at hb
            exact hb.2
          have hchars : ∀ k, k < w.length →
              wordChar ((d :: ds).getD k ' ') = true :=
            matchCI_wordChar w (d :: ds) hwc hmatchHere
          have hgt : m' + 1 > w.length := by
            by_contra hle
            push_neg at hle
            have h1 : wordChar ((d :: ds).getD m' ' ') = true :=
              hchars m' (by omega)
            have h2 : wordChar ((d :: ds).getD m' ' ') = false := by
              have := hmne (by omega)
              simpa using this
            rw [h1] at h2
            exact absurd h2 (by simp)
          rw [if_pos hb]
          apply List.mem_cons.mpr
          right
          have hstep := ih ((d :: ds).drop w.length) (j + w.length)
            (m' + 1 - w.length) true
            (by
              rw [List.length_drop]
              simp only [List.length_cons] at hlen ⊢
              omega)
            (by
              rw [List.drop_drop]
              have harg : w.length + (m' + 1 - w.length) = m' + 1 := by omega
              rw [harg]
              exact hm)
            (by intro h0; omega)
            (by
              intro _
              have hgd : ((d :: ds).drop w.length).getD
                  (m' + 1 - w.length - 1) ' ' =
                  (d :: ds).getD (w.length + (m' + 1 - w.length - 1)) ' ' := by
                simp [List.getD, List.getElem?_drop]
              rw [hgd]
              have harg : w.length + (m' + 1 - w.length - 1) = m' := by omega
              rw [harg]
              have := hmne (by omega)
              simpa using this)
          have heqi : j + w.length + (m' + 1 - w.length) = j + (m' + 1) := by
            omega
          have heqd : ((d :: ds).drop w.length).drop (m' + 1 - w.length) =
              (d :: ds).drop (m' + 1) := by
            rw [List.drop_drop]
            congr 1
            omega
          rw [heqi, heqd] at hstep
          exact hstep
        · rw [if_neg hb]
          have hstep := ih ds (j + 1) m' (wordChar d)
            (by simp only [List.length_cons] at hlen; omega)
            (by
              have harg : ds.drop m' = (d :: ds).drop (m' + 1) := rfl
              rw [harg]
              exact hm)
            (by
              intro h0
              subst h0
              have := hmne (by omega)
              simpa using this)
            (by
              intro hne
              have hprev := hmne (by omega)
              have harg : (d :: ds).getD (m' + 1 - 1) ' ' = ds.getD (m' - 1) ' ' := by
                have hm1 : m' + 1 - 1 = m' := by omega
                rw [hm1]
                cases m' with
                | zero => exact absurd rfl hne
                | succ k => simp
              rw [harg] at hprev
              exact hprev)
          have heqi : j + 1 + m' = j + (m' + 1) := by omega
          have heqd : ds.drop m' = (d :: ds).drop (m' + 1) := rfl
          rw [heqi, heqd] at hstep
          exact hstep

/-- Every whole-word occurrence of a nonempty all-word-character token is
found by the global scan. -/
theorem findMatches_complete (w s : List Char) (i : Nat)
    (hw : w ≠ []) (hwc : ∀ c ∈ w, wordChar c = true)
    (hv : validMatch w s i) :
    (i, (s.drop i).take w.length) ∈ findMatches w s := by
  unfold findMatches
  rw [if_neg (by simp [List.isEmpty_iff, hw])]
  have := findMatchesAux_complete w hw hwc s.length s 0 i false le_rfl hv.1
    (fun _ => rfl)
    (by
      intro hne
      rcases hv.2 with h | h
      · exact absurd h hne
      · exact h)
  simpa using this

/-- C10: re-location applies no inline-math filter.  Any whole-word
case-insensitive occurrence of the candidate token on an in-range line of the
document is reported, provided the line survives the comment-only and
environment-delimiter skips and the match passes the command and mid-line
comment filters — even when the match lies inside a `$...$` inline-math span
(the `insideInlineMath` hypothesis is never consulted by the detector). -/
theorem inline_math_occurrence_reported (word : String) (doc : TextDocument)
    (startLine endLine j i : Nat) (lineStr : String)
    (hw : word.data ≠ []) (hwc : ∀ c ∈ word.data, wordChar c = true)
    (hsj : startLine ≤ j) (hje : j ≤ endLine)
    (hline : doc.lines[j]? = some lineStr)
    (hcomment : commentOnlyLine lineStr.data = false)
    (henv : envDelimLine lineStr.data = false)
    (hvm : validMatch word.data lineStr.data i)
    (hcmd : isPartOfLatexCommand lineStr.data i (i + word.data.length) = false)
    (hmid : midLineComment (lineStr.data.take i) = false)
    (_hmath : insideInlineMath lineStr.data i) :
    mkResult j i ((lineStr.data.drop i).take word.data.length) ∈
      (findAllOccurrences word doc startLine endLine).getD [] := by
  have hjl : j < doc.lines.length := by
    by_contra h
    rw [List.getElem?_eq_none (by omega)] at hline
    exact Option.noConfusion hline
  have hmem : (i, (lineStr.data.drop i).take word.data.length) ∈
      findMatches word.data lineStr.data :=
    findMatches_complete word.data lineStr.data i hw hwc hvm
  have hlen : ((lineStr.data.drop i).take word.data.length).length =
      word.data.length := by
    rw [List.length_take, List.length_drop]
    have := matchCI_le_length word.data (lineStr.data.drop i) hvm.1
    rw [List.length_drop] at this
    omega
  have hres : mkResult j i ((lineStr.data.drop i).take word.data.length) ∈
      lineResults word.data lineStr.data j := by
    have := lineResults_mem_of word.data lineStr.data j
      (i, (lineStr.data.drop i).take word.data.length) hcomment henv hmem
      (by
        show isPartOfLatexCommand lineStr.data i
          (i + ((lineStr.data.drop i).take word.data.length).length) = false
        rw [hlen]
        exact hcmd)
      (by
        show midLineComment (lineStr.data.take i) = false
        exact hmid)
    simpa using this
  have hgd : doc.lines.getD j "" = lineStr := by
    simp [List.getD, hline]
  exact findOccLoop_mem_of word.data doc endLine j
    (mkResult j i ((lineStr.data.drop i).take word.data.length)) hje hjl
    (by rw [hgd]; exact hres) (endLine + 1 - startLine) startLine hsj rfl

/-- C10 witness: in `alpha alpha $alpha$`, the occurrence of `alpha` at
column 13 lies inside the inline math span and is reported. -/
theorem inline_math_occurrence_reported_witness :
    validMatch "alpha".data "alpha alpha $alpha$".data 13 ∧
    insideInlineMath "alpha alpha $alpha$".data 13 ∧
    mkResult 0 13 (("alpha alpha $alpha$".data.drop 13).take "alpha".data.length) ∈
      (findAllOccurrences "alpha" mathDoc 0 0).getD [] :=
  ⟨by decide, by decide,
   inline_math_occurrence_reported "alpha" mathDoc 0 0 0 13
     "alpha alpha $alpha$" (by decide) (by decide) (by decide) (by decide)
     (by decide) (by decide) (by decide) (by decide) (by decide) (by decide)
     (by decide)⟩
